import Mathlib

/-!
Verification of the NetCDF transfer subsystem of HydPy
(`hydpy/core/netcdftools.py`).

The module moves device-scoped time series between an in-memory store and
NetCDF array files.  We give a shallow embedding of its data model and
operations:

* numpy arrays of floats are modelled as a shape (a list of extents)
  together with a total valuation on multi-indices; no float arithmetic
  ever happens in the embedded code (values are only copied around), so
  the scalar type is an abstract `Val := Int`;
* the fixed-width `'|S1'` character cells used for the row-label
  coordinate are modelled as byte values (`Nat`), where the value 0 plays
  the role of numpy's empty byte string `b''` (numpy strips trailing NUL
  bytes on read, so a stored NUL byte reads back as `b''`);
* Python dictionaries (`collections.OrderedDict`) become association
  lists with in-place update and append-on-new-key;
* fallible operations return `Except String`, carrying the formatted
  error text of the original exceptions.
-/

namespace HydPy

/-- Scalar values stored in the modelled arrays.  The embedded code only
moves values around (never computes with them), so plain integers
suffice; the fill sentinel `-999.` becomes `-999`. -/
abbrev Val := Int

/-- `netcdftools.fillvalue`: default fill value for writing NetCDF files. -/
def fillvalue : Val := -999

/-- Python tuple comparison `<` on integer tuples: lexicographic, with a
proper prefix smaller than the longer tuple. -/
def tupleLt : List Nat → List Nat → Bool
  | [], [] => false
  | [], _ :: _ => true
  | _ :: _, [] => false
  | a :: as, b :: bs => if a < b then true else if a = b then tupleLt as bs else false

/-- `ix` is a valid multi-index into an array of the given shape:
same arity and pointwise within the extents. -/
def inBounds (ix shape : List Nat) : Bool :=
  ix.length = shape.length && (ix.zip shape).all fun p => p.1 < p.2

/-- Product of the extents of a shape (the number of cells); the empty
product is 1. -/
def listProd : List Nat → Nat
  | [] => 1
  | n :: rest => n * listProd rest

/-- `itertools.product(*(range(nmb) for nmb in shape))` as used by
`NetCDFVariableFlat._product`: all multi-indices of the given shape,
enumerated in row-major (lexicographic) order. -/
def product : List Nat → List (List Nat)
  | [] => [[]]
  | n :: rest => (List.range n).flatMap fun i => (product rest).map fun p => i :: p

/-- First byte of the UTF-8 encoding of a character.  `str2chars` stores
`char.encode('utf-8')` into a numpy cell of dtype `'|S1'`, which keeps
only the first byte. -/
def utf8FirstByte (c : Char) : Nat :=
  if c.toNat < 0x80 then c.toNat
  else if c.toNat < 0x800 then 0xC0 + c.toNat / 0x40
  else if c.toNat < 0x10000 then 0xE0 + c.toNat / 0x1000
  else 0xF0 + c.toNat / 0x40000

/-- `netcdftools.str2chars`: encode a list of names into a fixed-width
character array.  The source allocates a `(len(strings), maxlen)` array
filled with `b''` and writes the encoded characters of each name into its
row, so each row is the byte sequence of the name padded with empty cells
(byte value 0) up to the length of the longest name. -/
def str2chars (strings : List String) : List (List Nat) :=
  let maxlen := strings.foldl (fun m s => max m s.length) 0
  strings.map fun s =>
    s.data.map utf8FirstByte ++ List.replicate (maxlen - s.length) 0

/-- `netcdftools.chars2str`: decode a character array back into names.
Every non-empty cell contributes its decoded character, every empty cell
(byte value 0, numpy's `b''`) contributes the empty string.  The byte
decoding `char.decode('utf-8')` is modelled for single-byte (ASCII)
cells, the only cells `str2chars` produces for ASCII names. -/
def chars2str (chars : List (List Nat)) : List String :=
  chars.map fun row =>
    String.mk (row.filterMap fun b => if b ≠ 0 then some (Char.ofNat b) else none)

/-- A numpy array tagged with aggregation information
(`sequencetools.InfoArray`): a shape, a total valuation on multi-indices,
and the `info['type']` tag (`"unmodified"` for plain series, an
aggregation kind such as `"mean"` otherwise). -/
structure InfoArray where
  shape : List Nat
  val : List Nat → Val
  info_type : String

/-- The slice of an `IOSequence` object visible to `netcdftools`: the
predicates and descriptors consumed as key material, the spatial shape,
and the device name.  `is_model_sequence` models
`isinstance(sequence, sequencetools.ModelSequence)` (false for
node-anchored sequences). -/
structure IOSeq where
  is_model_sequence : Bool
  descr_model : String
  descr_sequence : String
  descr_device : String
  shape : List Nat

/-- `sequence.NDIM`: the spatial rank. -/
def IOSeq.ndim (q : IOSeq) : Nat := q.shape.length

/-- Modelled from the spec: `sequence.seriesshape` lives in
`sequencetools` (not under `src/`).  Per the spec, a handle owns "a
contiguous time-indexed value block", whose shape is the number of
timepoints of the global simulation window followed by the spatial
extents. -/
def seriesshape (pubT : Nat) (q : IOSeq) : List Nat := pubT :: q.shape

/-- Modelled from the spec: `len(sequence)` lives in `sequencetools` (not
under `src/`).  Per the spec, a device contributes
"product(extents, 1 if rank 0)" rows, i.e. the product of its spatial
extents with the empty product equal to 1. -/
def seqLen (q : IOSeq) : Nat := listProd q.shape

/-- One entry of the parallel ordered dicts `self.sequences` /
`self.arrays` of `NetCDFVariableBase`: the logged sequence and the
logged array (`None` on the read path). -/
structure LogEntry where
  seq : IOSeq
  arr : Option InfoArray

/-- State of a `NetCDFVariableBase` object: its name, the isolate flag,
and the ordered device → (sequence, array) registry (one entry per
device name, in registration order). -/
structure NCVariable where
  name : String
  isolate : Bool
  entries : List LogEntry

/-- `'_'.join(str(idx) for idx in prod)`. -/
def joinIdxs (p : List Nat) : String := String.intercalate "_" (p.map toString)

namespace NetCDFVariableFlat

/-- `NetCDFVariableFlat.subdevicenames`: for each logged sequence in
registration order, the plain device name when `seq.NDIM` is zero,
otherwise one label `"<device>_<i1>_..._<iR>"` per multi-index
enumerated by `_product` (row-major). -/
def subdevicenames (v : NCVariable) : List String :=
  v.entries.flatMap fun e =>
    if e.seq.ndim ≠ 0 then
      (product e.seq.shape).map fun p => e.seq.descr_device ++ "_" ++ joinIdxs p
    else [e.seq.descr_device]

/-- `NetCDFVariableFlat.shape`:
`(sum(len(seq) for seq in self.sequences.values()), len(pub.timegrids.init))`.
The first component sums the modelled `len` over the logged sequences,
the second is the number of timepoints of the global window. -/
def shape (pubT : Nat) (v : NCVariable) : Nat × Nat :=
  ((v.entries.map fun e => seqLen e.seq).sum, pubT)

end NetCDFVariableFlat

/-- `numpy.max(maxshape, axis=0)` as applied by `NetCDFVariableDeep.shape`
to the deque of series shapes: raises on an empty sequence (`none`); for
equal-length shapes numpy builds a regular 2-D integer array and takes
the elementwise maximum; for ragged shapes numpy builds a 1-D object
array of tuples and reduces it with Python tuple comparison, giving the
lexicographically greatest tuple. -/
def npMaxShapes (ss : List (List Nat)) : Option (List Nat) :=
  match ss with
  | [] => none
  | s :: rest =>
    if rest.all fun t => t.length = s.length then
      some (rest.foldl (fun acc t => acc.zipWith max t) s)
    else
      some (rest.foldl (fun acc t => if tupleLt acc t then t else acc) s)

/-- Validity of the numpy broadcast assignment `dst[region] = src`:
the source shape, aligned to the right, must agree with the destination
region shape dimension by dimension, a source extent of 1 excepted. -/
def broadcastOkay (dst src : List Nat) : Bool :=
  src.length ≤ dst.length &&
    ((dst.drop (dst.length - src.length)).zip src).all fun p => p.2 = p.1 || p.2 = 1

/-- Source multi-index corresponding to a destination multi-index under
numpy broadcasting: drop the leading destination coordinates and clamp
coordinates of broadcast (extent-1) source axes to 0. -/
def bcastIndex (dst src : List Nat) (ix : List Nat) : List Nat :=
  ((ix.drop (dst.length - src.length)).zip src).map fun p =>
    if p.2 = 1 then 0 else p.1

namespace NetCDFVariableDeep

/-- `NetCDFVariableDeep.shape`: the number of logged devices followed by
`numpy.max` over their series shapes (`none` when the numpy reduction
raises on an empty registry). -/
def shape (pubT : Nat) (v : NCVariable) : Option (List Nat) :=
  match npMaxShapes (v.entries.map fun e => seriesshape pubT e.seq) with
  | none => none
  | some maxshape => some (v.entries.length :: maxshape)

/-- The destination region selected by
`NetCDFVariableDeep.get_slices(idx, sequence.shape)` inside a row of the
dense array, as a shape: the full time axis, then `slice(0, length)` for
each spatial extent of the sequence (numpy clips a slice to the axis
size), then the remaining trailing axes in full. -/
def regionShape (maxshape ext : List Nat) : List Nat :=
  maxshape.headD 0 :: (List.zipWith min ext (maxshape.drop 1) ++ (maxshape.drop 1).drop ext.length)

/-- One iteration of the filling loop of `NetCDFVariableDeep.array`:
`array[self.get_slices(idx, sequence.shape)] = subarray`.  Fails like
numpy when the logged array does not broadcast onto the selected region
(or when `get_slices` supplies more indices than the array has axes, or
when no array was logged).  On success the cells of row `d` inside the
region take the (broadcast) values of the logged array; all other cells
keep their previous values. -/
def assign (maxshape : List Nat) (cur : Nat → Nat → List Nat → Val) (d : Nat)
    (e : LogEntry) : Except String (Nat → Nat → List Nat → Val) :=
  match e.arr with
  | none => .error "cannot assign None to an array slice"
  | some arr =>
    if e.seq.shape.length ≤ (maxshape.drop 1).length then
      let region := regionShape maxshape e.seq.shape
      if broadcastOkay region arr.shape then
        .ok fun i t ix =>
          if i = d && t < region.headD 0 && inBounds ix (region.drop 1) then
            arr.val (bcastIndex region arr.shape (t :: ix))
          else cur i t ix
      else
        .error "could not broadcast input array into the selected slice"
    else
      .error "too many indices for array"

/-- The filling loop of `NetCDFVariableDeep.array` over the logged
entries, starting at row `d`. -/
def fill (maxshape : List Nat) (d : Nat) (cur : Nat → Nat → List Nat → Val) :
    List LogEntry → Except String (Nat → Nat → List Nat → Val)
  | [] => .ok cur
  | e :: rest =>
    match assign maxshape cur d e with
    | .error s => .error s
    | .ok next => fill maxshape (d + 1) next rest

/-- `NetCDFVariableDeep.array`: allocate a dense array of the required
shape filled with the fill sentinel, then write each device's logged
block into its row.  The result is the cell valuation
(device row, timepoint, spatial multi-index) ↦ value, or the numpy error
raised during shape inference or assignment. -/
def array (pubT : Nat) (v : NCVariable) : Except String (Nat → Nat → List Nat → Val) :=
  match npMaxShapes (v.entries.map fun e => seriesshape pubT e.seq) with
  | none => .error "zero-size array to reduction operation maximum"
  | some maxshape => fill maxshape 0 (fun _ _ _ => fillvalue) v.entries

end NetCDFVariableDeep

/-- `NetCDFVariableBase.log`: record the sequence and the array under the
device-name key of the parallel ordered dicts, overwriting (in place) any
prior entry for that device and appending new devices at the end. -/
def NCVariable.log (v : NCVariable) (q : IOSeq) (ia : Option InfoArray) : NCVariable :=
  let upd : List LogEntry → List LogEntry := fun es =>
    if es.any fun e => e.seq.descr_device = q.descr_device then
      es.map fun e => if e.seq.descr_device = q.descr_device then ⟨q, ia⟩ else e
    else es ++ [⟨q, ia⟩]
  { v with entries := upd v.entries }

/-- `NetCDFVariableAgg.read`: unconditionally raise, telling the user
that aggregation is not invertible; the file and time-grid arguments are
never touched. -/
def NetCDFVariableAgg.read {α β : Type} (v : NCVariable) (_ncfile : α)
    (_timegrid_data : β) : Except String Unit :=
  .error ("The process of aggregating values (of sequence `" ++ v.name ++
    "` and other sequences as well) is not invertible.")

/-- The three `NetCDFVariableBase` subclasses a `NetCDFFile` can
instantiate. -/
inductive VariantKind where
  | deep
  | agg
  | flat
deriving DecidableEq

/-- A registered variable of a `NetCDFFile`: its class together with its
state. -/
structure StoredVar where
  kind : VariantKind
  var : NCVariable

/-- Lookup in an association list (ordered dict with unique keys). -/
def lookupAssoc {α : Type} : List (String × α) → String → Option α
  | [], _ => none
  | (k, v) :: rest, key => if k = key then some v else lookupAssoc rest key

/-- In-place value update of an association list (the position of an
existing key is preserved, as for a Python dict). -/
def updateAssoc {α : Type} : List (String × α) → String → α → List (String × α)
  | [], _, _ => []
  | (k, v) :: rest, key, val => if k = key then (k, val) :: rest else (k, v) :: updateAssoc rest key val

/-- `(infoarray is not None) and (infoarray.info['type'] != 'unmodified')`. -/
def isAggregated (ia : Option InfoArray) : Bool :=
  match ia with
  | none => false
  | some a => a.info_type ≠ "unmodified"

/-- State of a `NetCDFFile` object: its name, the two policy flags, and
the ordered variable-key → variable registry. -/
structure NetCDFFile where
  name : String
  flatten : Bool
  isolate : Bool
  vars : List (String × StoredVar)

namespace NetCDFFile

/-- The variable key derived at the start of `NetCDFFile.log`: the
sequence descriptor, with the aggregation tag appended (joined by `'_'`)
when the passed array is aggregated. -/
def varKey (q : IOSeq) (ia : Option InfoArray) : String :=
  match ia with
  | some a => if a.info_type ≠ "unmodified" then q.descr_sequence ++ "_" ++ a.info_type else q.descr_sequence
  | none => q.descr_sequence

/-- `NetCDFFile.log`: derive the variable key; reuse the registered
variable when present, otherwise create one of class
`NetCDFVariableAgg` (array aggregated), `NetCDFVariableFlat` (flatten
policy set) or `NetCDFVariableDeep`; then delegate the logging to it. -/
def log (f : NetCDFFile) (q : IOSeq) (ia : Option InfoArray) : NetCDFFile :=
  let aggregated := isAggregated ia
  let descr := varKey q ia
  match lookupAssoc f.vars descr with
  | some sv =>
    { f with vars := updateAssoc f.vars descr ⟨sv.kind, sv.var.log q ia⟩ }
  | none =>
    let kind := if aggregated then VariantKind.agg
      else if f.flatten then VariantKind.flat else VariantKind.deep
    let var : NCVariable := ⟨descr, f.isolate, []⟩
    { f with vars := f.vars ++ [(descr, ⟨kind, var.log q ia⟩)] }

end NetCDFFile

/-- State of a `NetCDFInterface` object: the two policy flags and the
ordered file-key → file registry. -/
structure NetCDFInterface where
  flatten : Bool
  isolate : Bool
  files : List (String × NetCDFFile)

namespace NetCDFInterface

/-- The file key derived at the start of `NetCDFInterface.log`:
`sequence.descr_model` for model sequences and `'node'` otherwise; when
`isolate` is set, `sequence.descr_sequence` is appended, and the
aggregation tag is further appended when the passed array is
aggregated. -/
def fileKey (isolate : Bool) (q : IOSeq) (ia : Option InfoArray) : String :=
  let descr := if q.is_model_sequence then q.descr_model else "node"
  if isolate then
    let descr := descr ++ "_" ++ q.descr_sequence
    match ia with
    | some a => if a.info_type ≠ "unmodified" then descr ++ "_" ++ a.info_type else descr
    | none => descr
  else descr

/-- `NetCDFInterface.log`: derive the file key; reuse the registered
`NetCDFFile` when present, otherwise create one (passing the flatten and
isolate policies); then delegate the logging to it. -/
def log (s : NetCDFInterface) (q : IOSeq) (ia : Option InfoArray) : NetCDFInterface :=
  let descr := fileKey s.isolate q ia
  match lookupAssoc s.files descr with
  | some f =>
    { s with files := updateAssoc s.files descr (f.log q ia) }
  | none =>
    let f : NetCDFFile := ⟨descr, s.flatten, s.isolate, []⟩
    { s with files := s.files ++ [(descr, f.log q ia)] }

/-- Modelled from the spec: the global simulation window
(`pub.timegrids.init`, from `hydpy.pub` and `timetools`, not under
`src/`) with its two conversions used by `NetCDFInterface.write`: the
reference-unit string `firstdate.to_cfunits('hours')` and the numeric
time-point array `to_timepoints('hours')`. -/
structure Timegrid where
  to_cfunits_hours : String
  to_timepoints_hours : List Int

/-- `NetCDFInterface.write`, with the I/O replaced by its trace: the list
of `NetCDFFile.write(timeunits, timepoints)` calls performed, as
(file key, time-unit string, time-point array) triples in registration
order.  With no registered file nothing happens; otherwise the global
window is required (modelled from the spec: accessing `pub.timegrids`
without a prepared window raises) and both shared values are computed
from it once. -/
def write (s : NetCDFInterface) (pub_timegrids : Option Timegrid) :
    Except String (List (String × String × List Int)) :=
  if s.files.isEmpty then .ok []
  else
    match pub_timegrids with
    | none => .error "no timegrids object has been prepared"
    | some init =>
      .ok (s.files.map fun kf => (kf.1, init.to_cfunits_hours, init.to_timepoints_hours))

end NetCDFInterface

/-- A NetCDF file on disk, as visible to the read-path coordinate
queries: its path and a name → character-array mapping for the stored
variables (`ncfile[name][:]`, raising `IndexError` when absent). -/
structure NcDataset where
  filepath : String
  charvars : List (String × List (List Nat))

/-- Return type of `NetCDFVariableBase.query_subdevice2index`: the
name → row-index map plus the sequence name and file path for
diagnostics. -/
structure Subdevice2Index where
  dict : List (String × Nat)
  name_sequence : String
  name_ncfile : String

/-- `Subdevice2Index.get_index`: the row index of a (sub)device name, or
an error naming the sequence, the missing (sub)device and the file. -/
def Subdevice2Index.get_index (s : Subdevice2Index) (name_subdevice : String) :
    Except String Nat :=
  match lookupAssoc s.dict name_subdevice with
  | some idx => .ok idx
  | none => .error ("No data for sequence `" ++ s.name_sequence ++
      "` and (sub)device `" ++ name_subdevice ++ "` in NetCDF file `" ++
      s.name_ncfile ++ "` available.")

namespace NetCDFVariableBase

/-- The error text of `NetCDFVariableBase.query_subdevices` when neither
candidate variable exists. -/
def missingCoordMessage (filepath test0 test1 name : String) : String :=
  "NetCDF file `" ++ filepath ++ "` does neither contain a variable named `" ++
    test0 ++ "` nor `" ++ test1 ++ "` for defining the coordinate locations of variable `" ++
    name ++ "`."

/-- `NetCDFVariableBase.query_subdevices`: try the prefixed variable name
`<name>_station_names` first, then the bare `station_names`, and decode
the first character array found; fail naming both attempted names when
neither exists. -/
def query_subdevices (v : NCVariable) (ncfile : NcDataset) : Except String (List String) :=
  let test0 := v.name ++ "_" ++ "station_names"
  let test1 := "station_names"
  match lookupAssoc ncfile.charvars test0 with
  | some chars => .ok (chars2str chars)
  | none =>
    match lookupAssoc ncfile.charvars test1 with
    | some chars => .ok (chars2str chars)
    | none => .error (missingCoordMessage ncfile.filepath test0 test1 v.name)

/-- The error text of `NetCDFVariableBase._test_duplicate_exists`. -/
def duplicateMessage (filepath name dup : String) : String :=
  "The NetCDF file `" ++ filepath ++ "` contains duplicate (sub)device names for variable `" ++
    name ++ "` (the first found duplicate is `" ++ dup ++ "`)."

/-- `NetCDFVariableBase._test_duplicate_exists`: scan the row labels in
file order and report the first one that occurs again later, if any.
(The source guards the scan with a `len != len(set)` test and raises
inside a nested loop over later positions; the net effect is exactly
this first-duplicate search.) -/
def test_duplicate : List String → Option String
  | [] => none
  | x :: rest => if x ∈ rest then some x else test_duplicate rest

/-- The dict comprehension
`{subdev: idx for (idx, subdev) in enumerate(subdevices)}`.  (As a
Python dict, a repeated label would keep the last index; the result is
only ever used on duplicate-free label lists, where the association-list
lookup agrees.) -/
def buildIndex (l : List String) : List (String × Nat) :=
  l.enum.map fun p => (p.2, p.1)

/-- `NetCDFVariableBase.query_subdevice2index`: read the row labels, fail
on the first duplicate found in scan order, otherwise wrap the
label → row-index map. -/
def query_subdevice2index (v : NCVariable) (ncfile : NcDataset) :
    Except String Subdevice2Index :=
  match query_subdevices v ncfile with
  | .error e => .error e
  | .ok subdevices =>
    match test_duplicate subdevices with
    | some dup => .error (duplicateMessage ncfile.filepath v.name dup)
    | none => .ok ⟨buildIndex subdevices, v.name, ncfile.filepath⟩

end NetCDFVariableBase

/-- The elementwise maximum the claim describes, one column at a time:
the maximum of the `k`-th extent over a list of shapes. -/
def colMax (ss : List (List Nat)) (k : Nat) : Nat :=
  ss.foldl (fun m s => max m (s.getD k 0)) 0

/-- Value of an entry's logged array, defaulting to the fill value. -/
def entryVal (e : LogEntry) (ix : List Nat) : Val :=
  match e.arr with
  | some arr => arr.val ix
  | none => fillvalue

section ConcreteExamples

def seqA : IOSeq := ⟨true, "m", "input_x", "A", []⟩
def seqB : IOSeq := ⟨true, "m", "input_x", "B", [2]⟩

def arrA : InfoArray := ⟨[4], fun ix => Int.ofNat (100 + ix.headD 0), "unmodified"⟩
def arrB : InfoArray :=
  ⟨[4, 2], fun ix => Int.ofNat (200 + 10 * ix.headD 0 + (ix.drop 1).headD 0), "unmodified"⟩

def flatVarAB : NCVariable := ⟨"input_x", false, [⟨seqA, some arrA⟩, ⟨seqB, some arrB⟩]⟩

def seqA1 : IOSeq := ⟨true, "m", "input_x", "A", [1]⟩
def arrA1 : InfoArray := ⟨[4, 1], fun ix => Int.ofNat (100 + ix.headD 0), "unmodified"⟩
def deepVarAB : NCVariable := ⟨"input_x", false, [⟨seqA1, some arrA1⟩, ⟨seqB, some arrB⟩]⟩

/-- A `"mean"`-tagged (aggregated) array over four timepoints. -/
def aggArrA : InfoArray := ⟨[4], fun ix => Int.ofNat (50 + ix.headD 0), "mean"⟩

/-- A session holding one registered file. -/
def exampleInterface1 : NetCDFInterface :=
  ⟨false, false, [("model", ⟨"model", false, false, []⟩)]⟩

/-- A concrete global simulation window. -/
def exampleTimegrid : NetCDFInterface.Timegrid :=
  ⟨"hours since 2000-01-01 00:00:00", [0, 1, 2, 3]⟩

/-- A variable named `flux_prec`, as in the source's doctests. -/
def exampleVar : NCVariable := ⟨"flux_prec", false, []⟩

/-- A file holding only the prefixed coordinate variable
`flux_prec_station_names` (labels `element1`, `element_2`). -/
def exampleNcFile : NcDataset :=
  ⟨"model.nc", [("flux_prec_station_names", str2chars ["element1", "element_2"])]⟩

/-- A file with no coordinate variable at all. -/
def exampleEmptyNcFile : NcDataset := ⟨"model.nc", []⟩

/-- The doctest file whose bare coordinate holds a duplicated label. -/
def exampleDupNcFile : NcDataset :=
  ⟨"model.nc", [("station_names",
    str2chars ["element3", "element1", "element1_1", "element1"])]⟩

end ConcreteExamples

section AssocLemmas

theorem lookupAssoc_append_right {α : Type} (l : List (String × α)) (k : String) (v : α)
    (h : lookupAssoc l k = none) : lookupAssoc (l ++ [(k, v)]) k = some v := by
  induction l with
  | nil => simp [lookupAssoc]
  | cons p rest ih =>
    obtain ⟨pk, pv⟩ := p
    rw [List.cons_append]
    rw [lookupAssoc] at h ⊢
    by_cases hk : pk = k
    · simp [hk] at h
    · simp only [hk, if_false] at h ⊢
      exact ih h

theorem lookupAssoc_updateAssoc {α : Type} (l : List (String × α)) (k : String) (v : α) :
    lookupAssoc (updateAssoc l k v) k = (lookupAssoc l k).map fun _ => v := by
  induction l with
  | nil => simp [lookupAssoc, updateAssoc]
  | cons p rest ih =>
    obtain ⟨pk, pv⟩ := p
    rw [updateAssoc]
    by_cases hk : pk = k
    · simp [lookupAssoc, hk]
    · simp only [hk, if_false, lookupAssoc]
      exact ih

theorem updateAssoc_length {α : Type} (l : List (String × α)) (k : String) (v : α) :
    (updateAssoc l k v).length = l.length := by
  induction l with
  | nil => rfl
  | cons p rest ih =>
    obtain ⟨pk, pv⟩ := p
    rw [updateAssoc]
    by_cases hk : pk = k
    · simp [hk]
    · simp [hk, ih]

end AssocLemmas

/-- C5: for every `NetCDFVariableAgg` object and every pair of arguments
(file, time grid), `read` raises the "aggregation of values is not
invertible" error naming the variable, and performs no read: the result
does not depend on the arguments at all. -/
theorem agg_read_not_invertible {α β : Type} (v : NCVariable) (ncfile : α) (window : β) :
    NetCDFVariableAgg.read v ncfile window =
      .error ("The process of aggregating values (of sequence `" ++ v.name ++
        "` and other sequences as well) is not invertible.") ∧
    (∃ s1 s2, NetCDFVariableAgg.read v ncfile window = .error (s1 ++ v.name ++ s2)) ∧
    (∀ {γ δ : Type} (ncfile' : γ) (window' : δ),
      NetCDFVariableAgg.read v ncfile window = NetCDFVariableAgg.read v ncfile' window') := by
  refine ⟨rfl, ⟨"The process of aggregating values (of sequence `",
    "` and other sequences as well) is not invertible.", ?_⟩, fun _ _ => rfl⟩
  rfl

/-- C3: a `NetCDFFile.log` call that creates a new variable registers it
under the derived key with class `Agg` when the passed array is tagged
with an aggregation kind, otherwise `Flat` when the flatten policy is
set, otherwise `Deep`; in particular a tagged array always yields `Agg`
whatever the flatten flag. -/
theorem file_log_variant_selection (f : NetCDFFile) (q : IOSeq) (ia : Option InfoArray)
    (hnew : lookupAssoc f.vars (NetCDFFile.varKey q ia) = none) :
    ∃ sv : StoredVar,
      lookupAssoc (f.log q ia).vars (NetCDFFile.varKey q ia) = some sv ∧
      sv.kind = (if isAggregated ia then VariantKind.agg
        else if f.flatten then VariantKind.flat else VariantKind.deep) ∧
      (isAggregated ia = true → sv.kind = VariantKind.agg) := by
  refine ⟨⟨if isAggregated ia then VariantKind.agg
    else if f.flatten then VariantKind.flat else VariantKind.deep,
    (⟨NetCDFFile.varKey q ia, f.isolate, []⟩ : NCVariable).log q ia⟩, ?_, rfl, ?_⟩
  · rw [NetCDFFile.log]
    simp only [hnew]
    exact lookupAssoc_append_right _ _ _ hnew
  · intro ha
    simp [ha]

/-- C3 witness: logging a `"mean"`-tagged array into a fresh file selects
variant `Agg` both with the flatten policy set and without it. -/
theorem file_log_variant_selection_witness :
    (∃ sv : StoredVar,
      lookupAssoc ((NetCDFFile.mk "model" true false []).log seqA (some aggArrA)).vars
        (NetCDFFile.varKey seqA (some aggArrA)) = some sv ∧
      sv.kind = (if isAggregated (some aggArrA) then VariantKind.agg
        else if (NetCDFFile.mk "model" true false []).flatten then VariantKind.flat
        else VariantKind.deep) ∧
      (isAggregated (some aggArrA) = true → sv.kind = VariantKind.agg)) ∧
    (∃ sv : StoredVar,
      lookupAssoc ((NetCDFFile.mk "model" false false []).log seqA (some aggArrA)).vars
        (NetCDFFile.varKey seqA (some aggArrA)) = some sv ∧
      sv.kind = (if isAggregated (some aggArrA) then VariantKind.agg
        else if (NetCDFFile.mk "model" false false []).flatten then VariantKind.flat
        else VariantKind.deep) ∧
      (isAggregated (some aggArrA) = true → sv.kind = VariantKind.agg)) :=
  ⟨file_log_variant_selection _ _ _ rfl, file_log_variant_selection _ _ _ rfl⟩

theorem inBounds_cons (i n : Nat) (q rest : List Nat) :
    inBounds (i :: q) (n :: rest) = true ↔ (i < n ∧ inBounds q rest = true) := by
  simp [inBounds]
  tauto

theorem mem_product_iff (s : List Nat) (p : List Nat) :
    p ∈ product s ↔ inBounds p s = true := by
  induction s generalizing p with
  | nil =>
    simp [product, inBounds, List.length_eq_zero]
  | cons n rest ih =>
    rw [product]
    simp only [List.mem_flatMap, List.mem_map, List.mem_range]
    constructor
    · rintro ⟨i, hi, q, hq, rfl⟩
      exact (inBounds_cons i n q rest).mpr ⟨hi, (ih q).mp hq⟩
    · intro hb
      match p with
      | [] => simp [inBounds] at hb
      | i :: q =>
        obtain ⟨hi, hq⟩ := (inBounds_cons i n q rest).mp hb
        exact ⟨i, hi, q, (ih q).mpr hq, rfl⟩

theorem product_length (s : List Nat) : (product s).length = listProd s := by
  induction s with
  | nil => rfl
  | cons n rest ih =>
    rw [product, listProd, List.length_flatMap]
    have hconst : (List.range n).map (List.length ∘ fun i => (product rest).map fun p => i :: p) =
        List.replicate n (product rest).length := by
      rw [List.eq_replicate_iff]
      constructor
      · simp
      · intro b hb
        simp only [List.mem_map] at hb
        obtain ⟨i, _, rfl⟩ := hb
        simp
    rw [hconst, List.sum_replicate, smul_eq_mul, ih]

theorem tupleLt_cons_self (a : Nat) (p q : List Nat) :
    tupleLt (a :: p) (a :: q) = tupleLt p q := by
  simp [tupleLt]

theorem tupleLt_cons_lt {a b : Nat} (h : a < b) (p q : List Nat) :
    tupleLt (a :: p) (b :: q) = true := by
  simp [tupleLt, h]

theorem pairwise_flatMap_cons (Q : List (List Nat))
    (hQ : Q.Pairwise fun x y => tupleLt x y = true)
    (l : List Nat) (hl : l.Pairwise (· < ·)) :
    (l.flatMap fun i => Q.map fun p => i :: p).Pairwise fun x y => tupleLt x y = true := by
  induction l with
  | nil => simp
  | cons a rest ih =>
    rw [List.flatMap_cons, List.pairwise_append]
    obtain ⟨ha, hrest⟩ := List.pairwise_cons.mp hl
    refine ⟨?_, ih hrest, ?_⟩
    · rw [List.pairwise_map]
      exact hQ.imp fun h => by rw [tupleLt_cons_self]; exact h
    · intro x hx y hy
      obtain ⟨p, _, rfl⟩ := List.mem_map.mp hx
      obtain ⟨b, hb, hy2⟩ := List.mem_flatMap.mp hy
      obtain ⟨q, _, rfl⟩ := List.mem_map.mp hy2
      exact tupleLt_cons_lt (ha b hb) p q

theorem product_pairwise (s : List Nat) :
    (product s).Pairwise fun x y => tupleLt x y = true := by
  induction s with
  | nil => simp [product]
  | cons n rest ih =>
    rw [product]
    exact pairwise_flatMap_cons _ ih _ (List.pairwise_lt_range n)

theorem zipWith_max_getD (a b : List Nat) (h : a.length = b.length) (k : Nat) :
    (List.zipWith max a b).getD k 0 = max (a.getD k 0) (b.getD k 0) := by
  induction a generalizing b k with
  | nil =>
    cases b with
    | nil => simp
    | cons y bs => simp at h
  | cons x as ih =>
    cases b with
    | nil => simp at h
    | cons y bs =>
      match k with
      | 0 => simp
      | k + 1 =>
        simp only [List.zipWith_cons_cons, List.getD_cons_succ]
        exact ih bs (by simpa using h) k

theorem foldl_zipWith_max_length (ts : List (List Nat)) (s : List Nat)
    (h : ∀ t ∈ ts, t.length = s.length) :
    (ts.foldl (fun acc t => acc.zipWith max t) s).length = s.length := by
  induction ts generalizing s with
  | nil => rfl
  | cons t ts ih =>
    rw [List.foldl_cons]
    have hz : (s.zipWith max t).length = s.length := by
      rw [List.length_zipWith, h t (by simp), Nat.min_self]
    rw [ih (s.zipWith max t) fun u hu => by rw [h u (by simp [hu]), hz], hz]

theorem foldl_zipWith_max_getD (ts : List (List Nat)) (s : List Nat) (k : Nat)
    (h : ∀ t ∈ ts, t.length = s.length) :
    (ts.foldl (fun acc t => acc.zipWith max t) s).getD k 0 =
      ts.foldl (fun m t => max m (t.getD k 0)) (s.getD k 0) := by
  induction ts generalizing s with
  | nil => rfl
  | cons t ts ih =>
    rw [List.foldl_cons, List.foldl_cons]
    have hz : (s.zipWith max t).length = s.length := by
      rw [List.length_zipWith, h t (by simp), Nat.min_self]
    rw [ih (s.zipWith max t) fun u hu => by rw [h u (by simp [hu]), hz]]
    rw [zipWith_max_getD s t (h t (by simp)).symm k]

theorem foldl_zipWith_max_cons (x : Nat) (s : List Nat) (ts : List (List Nat)) :
    ((ts.map fun t => x :: t).foldl (fun acc t => acc.zipWith max t) (x :: s)) =
      x :: ts.foldl (fun acc t => acc.zipWith max t) s := by
  induction ts generalizing s with
  | nil => rfl
  | cons t ts ih =>
    rw [List.map_cons, List.foldl_cons, List.foldl_cons, List.zipWith_cons_cons,
      Nat.max_self]
    exact ih (s.zipWith max t)

theorem init_le_foldl_max (l : List (List Nat)) (init k : Nat) :
    init ≤ l.foldl (fun m t => max m (t.getD k 0)) init := by
  induction l generalizing init with
  | nil => exact Nat.le_refl _
  | cons t ts ih =>
    rw [List.foldl_cons]
    exact Nat.le_trans (Nat.le_max_left _ _) (ih _)

theorem le_foldl_max (l : List (List Nat)) (t : List Nat) (ht : t ∈ l) (init k : Nat) :
    t.getD k 0 ≤ l.foldl (fun m u => max m (u.getD k 0)) init := by
  induction l generalizing init with
  | nil => simp at ht
  | cons u us ih =>
    rw [List.foldl_cons]
    rcases List.mem_cons.mp ht with rfl | hmem
    · exact Nat.le_trans (Nat.le_max_right _ _) (init_le_foldl_max us _ k)
    · exact ih hmem _

theorem le_colMax (ss : List (List Nat)) (t : List Nat) (ht : t ∈ ss) (k : Nat) :
    t.getD k 0 ≤ colMax ss k :=
  le_foldl_max ss t ht 0 k

theorem zipWith_min_eq_left (a b : List Nat) (hlen : a.length = b.length)
    (hle : ∀ k, a.getD k 0 ≤ b.getD k 0) : List.zipWith min a b = a := by
  induction a generalizing b with
  | nil => simp
  | cons x as ih =>
    cases b with
    | nil => simp at hlen
    | cons y bs =>
      rw [List.zipWith_cons_cons]
      have h0 : x ≤ y := by simpa using hle 0
      rw [Nat.min_eq_left h0]
      rw [ih bs (by simpa using hlen) fun k => by simpa using hle (k + 1)]

theorem broadcastOkay_self (s : List Nat) : broadcastOkay s s = true := by
  rw [broadcastOkay, Nat.sub_self, List.drop_zero, Bool.and_eq_true]
  refine ⟨by simp, ?_⟩
  induction s with
  | nil => rfl
  | cons x rest ih => simpa using ih

theorem bcastIndex_self (s ix : List Nat) (h : inBounds ix s = true) :
    bcastIndex s s ix = ix := by
  rw [bcastIndex, Nat.sub_self, List.drop_zero]
  induction ix generalizing s with
  | nil => simp
  | cons i q ih =>
    cases s with
    | nil => simp [inBounds] at h
    | cons n rest =>
      obtain ⟨hin, hq⟩ := (inBounds_cons i n q rest).mp h
      rw [List.zip_cons_cons, List.map_cons]
      by_cases h1 : n = 1
      · subst h1
        have : i = 0 := Nat.lt_one_iff.mp hin
        subst this
        simpa using ih rest hq
      · simpa [h1] using ih rest hq

theorem assign_exact (pubT : Nat) (mx : List Nat) (cur : Nat → Nat → List Nat → Val)
    (d : Nat) (e : LogEntry) (arr : InfoArray)
    (harr : e.arr = some arr) (hshape : arr.shape = pubT :: e.seq.shape)
    (hlen : e.seq.shape.length = mx.length)
    (hle : ∀ k, e.seq.shape.getD k 0 ≤ mx.getD k 0) :
    NetCDFVariableDeep.assign (pubT :: mx) cur d e = .ok fun i t ix =>
      if i = d ∧ t < pubT ∧ inBounds ix e.seq.shape = true then arr.val (t :: ix)
      else cur i t ix := by
  have hregion : NetCDFVariableDeep.regionShape (pubT :: mx) e.seq.shape =
      pubT :: e.seq.shape := by
    rw [NetCDFVariableDeep.regionShape]
    simp only [List.headD_cons, List.drop_succ_cons, List.drop_zero]
    rw [zipWith_min_eq_left e.seq.shape mx hlen hle, hlen, List.drop_length,
      List.append_nil]
  rw [NetCDFVariableDeep.assign, harr]
  simp only [List.drop_succ_cons, List.drop_zero]
  rw [if_pos (Nat.le_of_eq hlen), hregion, hshape, if_pos (broadcastOkay_self _)]
  apply congrArg Except.ok
  funext i t ix
  have hcond : ((i = d : Bool) && decide (t < pubT) &&
      inBounds ix e.seq.shape) = true ↔
      (i = d ∧ t < pubT ∧ inBounds ix e.seq.shape = true) := by
    simp [and_assoc]
  simp only [List.headD_cons, List.drop_succ_cons, List.drop_zero]
  by_cases h : i = d ∧ t < pubT ∧ inBounds ix e.seq.shape = true
  · rw [if_pos (hcond.mpr h), if_pos h,
      bcastIndex_self _ _ ((inBounds_cons t pubT ix e.seq.shape).mpr ⟨h.2.1, h.2.2⟩)]
  · rw [if_neg (fun hb => h (hcond.mp hb)), if_neg h]

theorem fill_exact (pubT : Nat) (mx : List Nat) (es : List LogEntry) (d : Nat)
    (cur : Nat → Nat → List Nat → Val)
    (hes : ∀ e ∈ es, ∃ arr, e.arr = some arr ∧ arr.shape = pubT :: e.seq.shape ∧
      e.seq.shape.length = mx.length ∧ ∀ k, e.seq.shape.getD k 0 ≤ mx.getD k 0) :
    ∃ f, NetCDFVariableDeep.fill (pubT :: mx) d cur es = .ok f ∧
      (∀ i t ix, i < d → f i t ix = cur i t ix) ∧
      (∀ i t ix, d + es.length ≤ i → f i t ix = cur i t ix) ∧
      (∀ j e, es[j]? = some e → ∀ t ix,
        (t < pubT ∧ inBounds ix e.seq.shape = true →
          f (d + j) t ix = entryVal e (t :: ix)) ∧
        (¬(t < pubT ∧ inBounds ix e.seq.shape = true) →
          f (d + j) t ix = cur (d + j) t ix)) := by
  induction es generalizing d cur with
  | nil =>
    refine ⟨cur, rfl, fun _ _ _ _ => rfl, fun _ _ _ _ => rfl, ?_⟩
    intro j e hj
    simp at hj
  | cons e rest ih =>
    obtain ⟨arr, harr, hshape, hlen, hle⟩ := hes e (by simp)
    rw [NetCDFVariableDeep.fill, assign_exact pubT mx cur d e arr harr hshape hlen hle]
    obtain ⟨f, hf, hlow, hhigh, hrows⟩ := ih (d + 1)
      (fun i t ix => if i = d ∧ t < pubT ∧ inBounds ix e.seq.shape = true
        then arr.val (t :: ix) else cur i t ix)
      (fun e' he' => hes e' (by simp [he']))
    refine ⟨f, hf, ?_, ?_, ?_⟩
    · intro i t ix hi
      rw [hlow i t ix (by omega)]
      exact if_neg fun hc => by omega
    · intro i t ix hi
      rw [List.length_cons] at hi
      rw [hhigh i t ix (by omega)]
      exact if_neg fun hc => by omega
    · intro j e' hj t ix
      match j with
      | 0 =>
        rw [List.getElem?_cons_zero] at hj
        injection hj with hj
        subst hj
        constructor
        · intro hc
          rw [Nat.add_zero, hlow d t ix (by omega), if_pos ⟨rfl, hc⟩, entryVal, harr]
        · intro hc
          rw [Nat.add_zero, hlow d t ix (by omega)]
          exact if_neg fun hcc => hc ⟨hcc.2.1, hcc.2.2⟩
      | jj + 1 =>
        rw [List.getElem?_cons_succ] at hj
        have := hrows jj e' hj t ix
        constructor
        · intro hc
          have h1 := this.1 hc
          rw [show d + (jj + 1) = d + 1 + jj by omega]
          exact h1
        · intro hc
          have h2 := this.2 hc
          rw [show d + (jj + 1) = d + 1 + jj by omega]
          rw [h2]
          exact if_neg fun hcc => by omega

/-- C2: for a Deep variable whose logged devices share one spatial rank
and whose logged arrays are the devices' series blocks, the shape is
(number of devices, number of timepoints, elementwise maximum over the
devices of the spatial extents); and in the dense array every cell of a
device's row within the device's own extents holds the logged value,
while every cell of the row beyond them holds the fill sentinel. -/
theorem deep_shape_and_padding (pubT : Nat) (v : NCVariable) (R : Nat)
    (hne : v.entries ≠ [])
    (hrank : ∀ e ∈ v.entries, e.seq.shape.length = R)
    (harr : ∀ e ∈ v.entries, ∃ arr, e.arr = some arr ∧ arr.shape = pubT :: e.seq.shape) :
    (∃ mx, NetCDFVariableDeep.shape pubT v = some (v.entries.length :: pubT :: mx) ∧
      mx.length = R ∧
      ∀ k, mx.getD k 0 = colMax (v.entries.map fun e => e.seq.shape) k) ∧
    (∃ a, NetCDFVariableDeep.array pubT v = .ok a ∧
      ∀ i e, v.entries[i]? = some e → ∀ t ix, t < pubT →
        (inBounds ix e.seq.shape = true → a i t ix = entryVal e (t :: ix)) ∧
        (inBounds ix e.seq.shape = false → a i t ix = fillvalue)) := by
  obtain ⟨e0, es, hL⟩ : ∃ e0 es, v.entries = e0 :: es := by
    cases hv : v.entries with
    | nil => exact absurd hv hne
    | cons a b => exact ⟨a, b, rfl⟩
  have he0 : e0 ∈ v.entries := by rw [hL]; simp
  have hmem : ∀ e ∈ es, e ∈ v.entries := fun e he => by rw [hL]; simp [he]
  have htails : ∀ t ∈ es.map fun e => e.seq.shape, t.length = e0.seq.shape.length := by
    intro t ht
    obtain ⟨e, he, rfl⟩ := List.mem_map.mp ht
    rw [hrank e (hmem e he), hrank e0 he0]
  have hmxlen : ((es.map fun e => e.seq.shape).foldl
      (fun acc t => acc.zipWith max t) e0.seq.shape).length = R := by
    rw [foldl_zipWith_max_length _ _ htails, hrank e0 he0]
  have hmxgetD : ∀ k, ((es.map fun e => e.seq.shape).foldl
      (fun acc t => acc.zipWith max t) e0.seq.shape).getD k 0 =
      colMax (v.entries.map fun e => e.seq.shape) k := by
    intro k
    rw [foldl_zipWith_max_getD _ _ k htails, hL, List.map_cons, colMax, List.foldl_cons,
      Nat.zero_max]
  have hnp : npMaxShapes (v.entries.map fun e => seriesshape pubT e.seq) =
      some (pubT :: (es.map fun e => e.seq.shape).foldl
        (fun acc t => acc.zipWith max t) e0.seq.shape) := by
    rw [hL, List.map_cons, npMaxShapes]
    have hall : ((es.map fun e => seriesshape pubT e.seq).all
        fun t => t.length = (seriesshape pubT e0.seq).length) = true := by
      rw [List.all_eq_true]
      intro t ht
      obtain ⟨e, he, rfl⟩ := List.mem_map.mp ht
      simp [seriesshape, hrank e (hmem e he), hrank e0 he0]
    rw [if_pos hall]
    have hmapped : es.map (fun e => seriesshape pubT e.seq) =
        (es.map fun e => e.seq.shape).map fun t => pubT :: t := by
      rw [List.map_map]
      rfl
    rw [hmapped]
    rw [show seriesshape pubT e0.seq = pubT :: e0.seq.shape from rfl]
    rw [foldl_zipWith_max_cons]
  refine ⟨⟨_, ?_, hmxlen, hmxgetD⟩, ?_⟩
  · rw [NetCDFVariableDeep.shape, hnp]
  · have hbound : ∀ e ∈ v.entries, ∀ k, e.seq.shape.getD k 0 ≤
        ((es.map fun e => e.seq.shape).foldl
          (fun acc t => acc.zipWith max t) e0.seq.shape).getD k 0 := by
      intro e he k
      rw [hmxgetD k]
      exact le_colMax (v.entries.map fun e => e.seq.shape) e.seq.shape
        (List.mem_map.mpr ⟨e, he, rfl⟩) k
    obtain ⟨f, hfill, hlow, hhigh, hrows⟩ := fill_exact pubT
      ((es.map fun e => e.seq.shape).foldl (fun acc t => acc.zipWith max t) e0.seq.shape)
      v.entries 0 (fun _ _ _ => fillvalue)
      (fun e he => by
        obtain ⟨arr, ha, hs⟩ := harr e he
        exact ⟨arr, ha, hs, by rw [hrank e he, hmxlen], hbound e he⟩)
    refine ⟨f, ?_, ?_⟩
    · rw [NetCDFVariableDeep.array, hnp]
      exact hfill
    · intro i e hie t ix ht
      have hr := hrows i e hie t ix
      rw [Nat.zero_add] at hr
      constructor
      · intro hib
        exact hr.1 ⟨ht, hib⟩
      · intro hib
        refine hr.2 fun hc => ?_
        rw [hib] at hc
        simp at hc

/-- C2 witness: two rank-1 devices with extents 1 and 2 over four
timepoints give shape (2, 4, 2); within-extent cells hold the logged
values and the out-of-extent cell of the narrow device holds the fill
sentinel. -/
theorem deep_shape_and_padding_witness :
    ((∃ mx, NetCDFVariableDeep.shape 4 deepVarAB =
        some (deepVarAB.entries.length :: 4 :: mx) ∧
      mx.length = 1 ∧
      ∀ k, mx.getD k 0 = colMax (deepVarAB.entries.map fun e => e.seq.shape) k) ∧
    (∃ a, NetCDFVariableDeep.array 4 deepVarAB = .ok a ∧
      ∀ i e, deepVarAB.entries[i]? = some e → ∀ t ix, t < 4 →
        (inBounds ix e.seq.shape = true → a i t ix = entryVal e (t :: ix)) ∧
        (inBounds ix e.seq.shape = false → a i t ix = fillvalue))) ∧
    NetCDFVariableDeep.shape 4 deepVarAB = some [2, 4, 2] :=
  ⟨deep_shape_and_padding 4 deepVarAB 1 (List.cons_ne_nil _ _)
    (by
      intro e he
      simp only [deepVarAB, List.mem_cons, List.not_mem_nil, or_false] at he
      rcases he with rfl | rfl <;> rfl)
    (by
      intro e he
      simp only [deepVarAB, List.mem_cons, List.not_mem_nil, or_false] at he
      rcases he with rfl | rfl
      · exact ⟨arrA1, rfl, rfl⟩
      · exact ⟨arrB, rfl, rfl⟩),
    by decide⟩

/-- C8 counterexample: with device A of spatial rank 0 and device B of
rank 1 (extent 2) logged into one Deep variable over 4 timepoints,
`shape` does give (2, 4, 2) (the numpy object-array maximum of the
ragged series shapes (4,) and (4, 2)), but building `array` raises:
numpy cannot broadcast A's (4,)-shaped series block into the
(4, 2)-shaped row the slice selects, so no dense array — and in
particular no fill-sentinel cell in A's row — is ever produced. -/
theorem deep_mixed_rank_counterexample :
    NetCDFVariableDeep.shape 4 flatVarAB = some [2, 4, 2] ∧
    (NetCDFVariableDeep.array 4 flatVarAB).isOk = false ∧
    ¬∃ a, NetCDFVariableDeep.array 4 flatVarAB = .ok a := by
  refine ⟨by decide, by rfl, ?_⟩
  rintro ⟨a, ha⟩
  have hok : (NetCDFVariableDeep.array 4 flatVarAB).isOk = true := by
    rw [ha]
    rfl
  rw [show (NetCDFVariableDeep.array 4 flatVarAB).isOk = false from rfl] at hok
  exact Bool.false_ne_true hok

/-- C8 (amended): the same scenario with the Deep-variable invariant
restored — both devices of spatial rank 1, A with extent 1 and B with
extent 2, over 4 timepoints — has array shape (2, 4, 2), A's second
spatial column holds the fill sentinel, and A's first spatial column
holds its logged values.  (With A of rank 0, `shape` still gives
(2, 4, 2) but the array construction fails with a broadcast error.) -/
theorem deep_rank1_scenario :
    NetCDFVariableDeep.shape 4 deepVarAB = some [2, 4, 2] ∧
    ∃ a, NetCDFVariableDeep.array 4 deepVarAB = .ok a ∧
      (∀ t, a 0 t [1] = fillvalue) ∧
      (∀ t ix, t < 4 → inBounds ix [1] = true → a 0 t ix = arrA1.val (t :: ix)) := by
  refine ⟨by decide, ?_⟩
  have hb : ∀ e ∈ deepVarAB.entries, ∃ arr, e.arr = some arr ∧
      arr.shape = 4 :: e.seq.shape ∧ e.seq.shape.length = ([2] : List Nat).length ∧
      ∀ k, e.seq.shape.getD k 0 ≤ ([2] : List Nat).getD k 0 := by
    intro e he
    simp only [deepVarAB, List.mem_cons, List.not_mem_nil, or_false] at he
    rcases he with rfl | rfl
    · refine ⟨arrA1, rfl, rfl, rfl, fun k => ?_⟩
      cases k with
      | zero => decide
      | succ n => simp [seqA1]
    · exact ⟨arrB, rfl, rfl, rfl, fun k => Nat.le_refl _⟩
  obtain ⟨f, hfill, hlow, hhigh, hrows⟩ :=
    fill_exact 4 [2] deepVarAB.entries 0 (fun _ _ _ => fillvalue) hb
  refine ⟨f, ?_, ?_, ?_⟩
  · rw [show NetCDFVariableDeep.array 4 deepVarAB =
      NetCDFVariableDeep.fill (4 :: [2]) 0 (fun _ _ _ => fillvalue) deepVarAB.entries from rfl]
    exact hfill
  · intro t
    have h := (hrows 0 ⟨seqA1, some arrA1⟩ rfl t [1]).2 ?_
    · exact h
    · rintro ⟨_, hib⟩
      exact absurd hib (by decide)
  · intro t ix ht hib
    exact (hrows 0 ⟨seqA1, some arrA1⟩ rfl t ix).1 ⟨ht, hib⟩

/-- C1: the Flat variable's row labels list, in device registration
order, the plain device name for each rank-0 device and one
`"<device>_<i1>_..._<iR>"` label per multi-index of each higher-rank
device; the multi-indices of a shape are enumerated without repetition
(strictly increasing in tuple order, i.e. row-major), cover exactly the
indices within the extents, and number the product of the extents; and
the array shape is (sum over devices of that row count, number of
timepoints), which equals (number of row labels, number of
timepoints). -/
theorem flat_rows_and_shape (pubT : Nat) (v : NCVariable) :
    NetCDFVariableFlat.subdevicenames v =
      (v.entries.flatMap fun e =>
        if e.seq.shape.length = 0 then [e.seq.descr_device]
        else (product e.seq.shape).map fun p => e.seq.descr_device ++ "_" ++ joinIdxs p) ∧
    (∀ s : List Nat, (product s).length = listProd s ∧
      ((product s).Pairwise fun x y => tupleLt x y = true) ∧
      ∀ p : List Nat, p ∈ product s ↔ inBounds p s = true) ∧
    NetCDFVariableFlat.shape pubT v =
      ((v.entries.map fun e => listProd e.seq.shape).sum, pubT) ∧
    (NetCDFVariableFlat.subdevicenames v).length = (NetCDFVariableFlat.shape pubT v).1 := by
  refine ⟨?_, fun s => ⟨product_length s, product_pairwise s, mem_product_iff s⟩, rfl, ?_⟩
  · rw [NetCDFVariableFlat.subdevicenames]
    congr 1
    funext e
    by_cases h : e.seq.shape.length = 0 <;> simp [IOSeq.ndim, h]
  · rw [NetCDFVariableFlat.subdevicenames, List.length_flatMap]
    show _ = (v.entries.map fun e => seqLen e.seq).sum
    have hfun : (List.length ∘ fun e : LogEntry =>
        if e.seq.ndim ≠ 0 then
          (product e.seq.shape).map fun p => e.seq.descr_device ++ "_" ++ joinIdxs p
        else [e.seq.descr_device]) = fun e : LogEntry => seqLen e.seq := by
      funext e
      simp only [Function.comp_apply]
      by_cases h : e.seq.ndim = 0
      · have hnil : e.seq.shape = [] := List.length_eq_zero.mp h
        simp [h, hnil, seqLen, listProd]
      · simp [h, product_length, seqLen]
    rw [hfun]

/-- C1 witness: rank-0 device A and rank-1 device B with extent 2 over
four timepoints yield the three rows `A`, `B_0`, `B_1` and shape
(3, 4). -/
theorem flat_rows_and_shape_witness :
    NetCDFVariableFlat.subdevicenames flatVarAB = ["A", "B_0", "B_1"] ∧
    NetCDFVariableFlat.shape 4 flatVarAB = (3, 4) ∧
    (NetCDFVariableFlat.subdevicenames flatVarAB).length =
      (NetCDFVariableFlat.shape 4 flatVarAB).1 :=
  ⟨by decide, by decide, (flat_rows_and_shape 4 flatVarAB).2.2.2⟩

theorem filterMap_decode_replicate (k : Nat) :
    (List.replicate k 0).filterMap
      (fun b => if b ≠ 0 then some (Char.ofNat b) else none) = [] := by
  induction k with
  | zero => rfl
  | succ n ih => simp [List.replicate_succ, ih]

theorem filterMap_decode_encode (l : List Char)
    (h : ∀ c ∈ l, 0 < c.toNat ∧ c.toNat < 128) :
    (l.map utf8FirstByte).filterMap
      (fun b => if b ≠ 0 then some (Char.ofNat b) else none) = l := by
  induction l with
  | nil => rfl
  | cons c rest ih =>
    have hc := h c (by simp)
    have henc : utf8FirstByte c = c.toNat := by
      rw [utf8FirstByte, if_pos hc.2]
    have hne : c.toNat ≠ 0 := Nat.pos_iff_ne_zero.mp hc.1
    rw [List.map_cons, List.filterMap_cons]
    simp only [henc, hne, ne_eq, not_false_iff, if_true]
    rw [Char.ofNat_toNat]
    rw [ih fun d hd => h d (by simp [hd])]

/-- C10 counterexample: the NUL character encodes to a single UTF-8 byte,
but a name containing it does not survive the round trip, because the
numpy `'|S1'` cell holding the NUL byte reads back as the empty byte
string and `chars2str` drops it. -/
theorem chars2str_str2chars_nul_counterexample :
    (∀ s ∈ ["\x00"], ∀ c ∈ s.data, c.utf8Size = 1) ∧
    chars2str (str2chars ["\x00"]) ≠ ["\x00"] := by
  exact ⟨by decide, by decide⟩

/-- C10 (amended): for names whose characters encode to a single
*nonzero* UTF-8 byte (ASCII without NUL), `chars2str` inverts
`str2chars`: decoding drops exactly the padding cells that encoding
added up to the longest name. -/
theorem chars2str_str2chars_roundtrip (names : List String)
    (h : ∀ s ∈ names, ∀ c ∈ s.data, 0 < c.toNat ∧ c.toNat < 128) :
    chars2str (str2chars names) = names := by
  rw [str2chars, chars2str, List.map_map]
  conv_rhs => rw [← List.map_id names]
  apply List.map_congr_left
  intro s hs
  simp only [Function.comp_apply, id_eq]
  rw [List.filterMap_append, filterMap_decode_replicate,
    filterMap_decode_encode s.data (h s hs), List.append_nil]

/-- C10 witness: two plain ASCII names survive the round trip. -/
theorem chars2str_str2chars_roundtrip_witness :
    (∀ s ∈ ["zeros", "ones"], ∀ c ∈ s.data, 0 < c.toNat ∧ c.toNat < 128) ∧
    chars2str (str2chars ["zeros", "ones"]) = ["zeros", "ones"] :=
  ⟨by decide, chars2str_str2chars_roundtrip ["zeros", "ones"] (by decide)⟩

theorem interface_log_isolate (s : NetCDFInterface) (q : IOSeq) (ia : Option InfoArray) :
    (s.log q ia).isolate = s.isolate := by
  simp only [NetCDFInterface.log]
  cases lookupAssoc s.files (NetCDFInterface.fileKey s.isolate q ia) <;> rfl

theorem interface_log_registers (s : NetCDFInterface) (q : IOSeq) (ia : Option InfoArray) :
    ∃ g, lookupAssoc (s.log q ia).files (NetCDFInterface.fileKey s.isolate q ia) = some g := by
  simp only [NetCDFInterface.log]
  cases h : lookupAssoc s.files (NetCDFInterface.fileKey s.isolate q ia) with
  | some f =>
    refine ⟨f.log q ia, ?_⟩
    simp [lookupAssoc_updateAssoc, h]
  | none =>
    exact ⟨_, lookupAssoc_append_right _ _ _ h⟩

/-- C4: the file key derived by `NetCDFInterface.log` is `"node"` for
node-anchored quantities and the model discriminator otherwise; with
`isolate` set the sequence descriptor is appended, and the aggregation
tag on top when the array is tagged; and two log calls deriving equal
keys are served by the same registered file (the first call registers
it, the second updates it in place, creating nothing). -/
theorem interface_log_routing (s : NetCDFInterface) (q1 q2 : IOSeq) (ia1 ia2 : Option InfoArray)
    (hkey : NetCDFInterface.fileKey s.isolate q1 ia1 = NetCDFInterface.fileKey s.isolate q2 ia2) :
    (s.isolate = false →
      NetCDFInterface.fileKey s.isolate q1 ia1 =
        (if q1.is_model_sequence then q1.descr_model else "node")) ∧
    (s.isolate = true → isAggregated ia1 = false →
      NetCDFInterface.fileKey s.isolate q1 ia1 =
        (if q1.is_model_sequence then q1.descr_model else "node") ++ "_" ++ q1.descr_sequence) ∧
    (s.isolate = true → ∀ a, ia1 = some a → a.info_type ≠ "unmodified" →
      NetCDFInterface.fileKey s.isolate q1 ia1 =
        (if q1.is_model_sequence then q1.descr_model else "node") ++ "_" ++ q1.descr_sequence
          ++ "_" ++ a.info_type) ∧
    ((lookupAssoc (s.log q1 ia1).files (NetCDFInterface.fileKey s.isolate q1 ia1)).isSome = true ∧
      ((s.log q1 ia1).log q2 ia2).files.length = (s.log q1 ia1).files.length ∧
      lookupAssoc ((s.log q1 ia1).log q2 ia2).files (NetCDFInterface.fileKey s.isolate q1 ia1) =
        (lookupAssoc (s.log q1 ia1).files (NetCDFInterface.fileKey s.isolate q1 ia1)).map
          fun f => f.log q2 ia2) := by
  refine ⟨?_, ?_, ?_, ?_⟩
  · intro hiso
    simp [NetCDFInterface.fileKey, hiso]
  · intro hiso hagg
    cases ia1 with
    | none => simp [NetCDFInterface.fileKey, hiso]
    | some a =>
      have ha : a.info_type = "unmodified" := by
        by_contra hne
        simp [isAggregated, hne] at hagg
      simp [NetCDFInterface.fileKey, hiso, ha]
  · intro hiso a ha htag
    subst ha
    simp [NetCDFInterface.fileKey, hiso, htag]
  · obtain ⟨g, hg⟩ := interface_log_registers s q1 ia1
    have hkey2 : NetCDFInterface.fileKey (s.log q1 ia1).isolate q2 ia2 =
        NetCDFInterface.fileKey s.isolate q1 ia1 := by
      rw [interface_log_isolate, ← hkey]
    refine ⟨by simp [hg], ?_, ?_⟩
    · conv_lhs => rw [NetCDFInterface.log]
      rw [hkey2, hg]
      exact updateAssoc_length _ _ _
    · conv_lhs => rw [NetCDFInterface.log]
      rw [hkey2, hg]
      simp [lookupAssoc_updateAssoc, hg]

/-- C4 witness: two non-aggregated log calls for model sequences with the
same model discriminator in an isolating session derive the same key and
are routed to the same file. -/
theorem interface_log_routing_witness :
    ((NetCDFInterface.mk false true []).isolate = false →
      NetCDFInterface.fileKey (NetCDFInterface.mk false true []).isolate seqA none =
        (if seqA.is_model_sequence then seqA.descr_model else "node")) ∧
    ((NetCDFInterface.mk false true []).isolate = true → isAggregated none = false →
      NetCDFInterface.fileKey (NetCDFInterface.mk false true []).isolate seqA none =
        (if seqA.is_model_sequence then seqA.descr_model else "node") ++ "_" ++
          seqA.descr_sequence) ∧
    ((NetCDFInterface.mk false true []).isolate = true →
      ∀ a : InfoArray, (none : Option InfoArray) = some a → a.info_type ≠ "unmodified" →
      NetCDFInterface.fileKey (NetCDFInterface.mk false true []).isolate seqA none =
        (if seqA.is_model_sequence then seqA.descr_model else "node") ++ "_" ++
          seqA.descr_sequence ++ "_" ++ a.info_type) ∧
    ((lookupAssoc ((NetCDFInterface.mk false true []).log seqA none).files
        (NetCDFInterface.fileKey (NetCDFInterface.mk false true []).isolate seqA none)).isSome
          = true ∧
      (((NetCDFInterface.mk false true []).log seqA none).log seqB none).files.length =
        ((NetCDFInterface.mk false true []).log seqA none).files.length ∧
      lookupAssoc (((NetCDFInterface.mk false true []).log seqA none).log seqB none).files
          (NetCDFInterface.fileKey (NetCDFInterface.mk false true []).isolate seqA none) =
        (lookupAssoc ((NetCDFInterface.mk false true []).log seqA none).files
          (NetCDFInterface.fileKey (NetCDFInterface.mk false true []).isolate seqA none)).map
            fun f => f.log seqB none) :=
  interface_log_routing (NetCDFInterface.mk false true []) seqA seqB none none rfl

/-- C9: `NetCDFInterface.write` with no registered file is a no-op (an
empty trace and no failure, whatever the global window state); with
registered files it fails when no global simulation window is available,
and otherwise calls every file's write in registration order with the
one shared time-unit string and time-point array computed from the
window. -/
theorem interface_write_shared_window (s : NetCDFInterface) (tg : NetCDFInterface.Timegrid) :
    (s.files = [] → ∀ pub_timegrids, s.write pub_timegrids = .ok []) ∧
    (s.files ≠ [] → ∃ e, s.write none = .error e) ∧
    (s.files ≠ [] →
      ∃ trace, s.write (some tg) = .ok trace ∧
        trace.map Prod.fst = s.files.map Prod.fst ∧
        ∀ c ∈ trace, c.2 = (tg.to_cfunits_hours, tg.to_timepoints_hours)) := by
  refine ⟨?_, ?_, ?_⟩
  · intro h _
    simp only [NetCDFInterface.write]
    simp [h]
  · intro h
    refine ⟨"no timegrids object has been prepared", ?_⟩
    simp only [NetCDFInterface.write]
    simp [List.isEmpty_iff, h]
  · intro h
    refine ⟨s.files.map fun kf => (kf.1, tg.to_cfunits_hours, tg.to_timepoints_hours),
      ?_, ?_, ?_⟩
    · simp only [NetCDFInterface.write]
      simp [List.isEmpty_iff, h]
    · simp
    · intro c hc
      simp only [List.mem_map] at hc
      obtain ⟨kf, _, rfl⟩ := hc
      rfl

/-- C9 witness: a session with one registered file fails without a window
and writes the shared values with one; an empty session is a no-op. -/
theorem interface_write_shared_window_witness :
    ((exampleInterface1.files = [] →
      ∀ pub_timegrids, exampleInterface1.write pub_timegrids = .ok []) ∧
    (exampleInterface1.files ≠ [] → ∃ e, exampleInterface1.write none = .error e) ∧
    (exampleInterface1.files ≠ [] →
      ∃ trace, exampleInterface1.write (some exampleTimegrid) = .ok trace ∧
        trace.map Prod.fst = exampleInterface1.files.map Prod.fst ∧
        ∀ c ∈ trace, c.2 = (exampleTimegrid.to_cfunits_hours,
          exampleTimegrid.to_timepoints_hours))) ∧
    (NetCDFInterface.mk false false []).write none = .ok [] :=
  ⟨interface_write_shared_window exampleInterface1 exampleTimegrid, rfl⟩

theorem test_duplicate_eq_none_iff (l : List String) :
    NetCDFVariableBase.test_duplicate l = none ↔ l.Nodup := by
  induction l with
  | nil => simp [NetCDFVariableBase.test_duplicate]
  | cons x rest ih =>
    rw [NetCDFVariableBase.test_duplicate]
    by_cases hx : x ∈ rest
    · simp [hx]
    · simp [hx, ih]

theorem test_duplicate_first (l : List String) (d : String)
    (h : NetCDFVariableBase.test_duplicate l = some d) :
    ∃ i, l[i]? = some d ∧ d ∈ l.drop (i + 1) ∧
      ∀ i' x, i' < i → l[i']? = some x → x ∉ l.drop (i' + 1) := by
  induction l with
  | nil => simp [NetCDFVariableBase.test_duplicate] at h
  | cons y rest ih =>
    rw [NetCDFVariableBase.test_duplicate] at h
    by_cases hy : y ∈ rest
    · simp only [hy, if_pos, Option.some.injEq] at h
      subst h
      exact ⟨0, by simp, by simpa using hy, fun i' x hi' => by omega⟩
    · simp only [hy, if_neg, if_false] at h
      obtain ⟨i, h1, h2, h3⟩ := ih h
      refine ⟨i + 1, by simpa using h1, by simpa using h2, ?_⟩
      intro i' x hi' hx
      match i' with
      | 0 =>
        simp only [List.getElem?_cons_zero, Option.some.injEq] at hx
        subst hx
        simpa using hy
      | j + 1 =>
        simp only [List.getElem?_cons_succ] at hx
        have := h3 j x (by omega) hx
        simpa using this

theorem buildIndex_lookup_aux (l : List String) (n i : Nat) (s : String)
    (hnd : l.Nodup) (h : l[i]? = some s) :
    lookupAssoc ((l.enumFrom n).map fun p => (p.2, p.1)) s = some (n + i) := by
  induction l generalizing n i with
  | nil => simp at h
  | cons x rest ih =>
    rw [List.enumFrom]
    rw [List.map_cons, lookupAssoc]
    match i with
    | 0 =>
      simp only [List.getElem?_cons_zero, Option.some.injEq] at h
      subst h
      simp
    | j + 1 =>
      simp only [List.getElem?_cons_succ] at h
      have hmem : s ∈ rest := List.getElem?_mem h
      have hne : x ≠ s := by
        intro hxs
        subst hxs
        exact (List.nodup_cons.mp hnd).1 hmem
      simp only [hne, if_false]
      have := ih (n + 1) j (List.nodup_cons.mp hnd).2 h
      rw [this]
      congr 1
      omega

theorem buildIndex_lookup (l : List String) (hnd : l.Nodup) (i : Nat) (s : String)
    (h : l[i]? = some s) :
    lookupAssoc (NetCDFVariableBase.buildIndex l) s = some i := by
  have := buildIndex_lookup_aux l 0 i s hnd h
  simpa [NetCDFVariableBase.buildIndex, List.enum] using this

/-- C6: given the row-label list read from the file's coordinate
variable, `query_subdevice2index` fails exactly when the list holds a
repeated label; on failure the reported duplicate is the label at the
first position (in file order) whose label occurs again later; on
success the result maps each label to its row index. -/
theorem query_subdevice2index_duplicates (v : NCVariable) (nc : NcDataset)
    (labels : List String)
    (hread : NetCDFVariableBase.query_subdevices v nc = .ok labels) :
    ((∃ e, NetCDFVariableBase.query_subdevice2index v nc = .error e) ↔ ¬labels.Nodup) ∧
    (¬labels.Nodup →
      ∃ d i, NetCDFVariableBase.query_subdevice2index v nc =
          .error (NetCDFVariableBase.duplicateMessage nc.filepath v.name d) ∧
        labels[i]? = some d ∧ d ∈ labels.drop (i + 1) ∧
        ∀ i' x, i' < i → labels[i']? = some x → x ∉ labels.drop (i' + 1)) ∧
    (labels.Nodup →
      NetCDFVariableBase.query_subdevice2index v nc =
        .ok ⟨NetCDFVariableBase.buildIndex labels, v.name, nc.filepath⟩ ∧
      ∀ i s, labels[i]? = some s →
        lookupAssoc (NetCDFVariableBase.buildIndex labels) s = some i) := by
  have hq : NetCDFVariableBase.query_subdevice2index v nc =
      (match NetCDFVariableBase.test_duplicate labels with
        | some dup => .error (NetCDFVariableBase.duplicateMessage nc.filepath v.name dup)
        | none => .ok ⟨NetCDFVariableBase.buildIndex labels, v.name, nc.filepath⟩) := by
    rw [NetCDFVariableBase.query_subdevice2index, hread]
  refine ⟨?_, ?_, ?_⟩
  · constructor
    · rintro ⟨e, he⟩ hnd
      rw [hq, (test_duplicate_eq_none_iff labels).mpr hnd] at he
      exact Except.noConfusion he
    · intro hnd
      cases hdup : NetCDFVariableBase.test_duplicate labels with
      | none => exact absurd ((test_duplicate_eq_none_iff labels).mp hdup) hnd
      | some d => exact ⟨_, by rw [hq, hdup]⟩
  · intro hnd
    cases hdup : NetCDFVariableBase.test_duplicate labels with
    | none => exact absurd ((test_duplicate_eq_none_iff labels).mp hdup) hnd
    | some d =>
      obtain ⟨i, h1, h2, h3⟩ := test_duplicate_first labels d hdup
      exact ⟨d, i, by rw [hq, hdup], h1, h2, h3⟩
  · intro hnd
    have hdup : NetCDFVariableBase.test_duplicate labels = none :=
      (test_duplicate_eq_none_iff labels).mpr hnd
    refine ⟨by rw [hq, hdup], ?_⟩
    intro i s hs
    exact buildIndex_lookup labels hnd i s hs

/-- C6 witness: the doctest label list with `element1` repeated is
rejected, and its duplicate-free prefix is indexed. -/
theorem query_subdevice2index_duplicates_witness :
    (((∃ e, NetCDFVariableBase.query_subdevice2index exampleVar exampleDupNcFile = .error e) ↔
      ¬["element3", "element1", "element1_1", "element1"].Nodup) ∧
    (¬["element3", "element1", "element1_1", "element1"].Nodup →
      ∃ d i, NetCDFVariableBase.query_subdevice2index exampleVar exampleDupNcFile =
          .error (NetCDFVariableBase.duplicateMessage exampleDupNcFile.filepath
            exampleVar.name d) ∧
        ["element3", "element1", "element1_1", "element1"][i]? = some d ∧
        d ∈ ["element3", "element1", "element1_1", "element1"].drop (i + 1) ∧
        ∀ i' x, i' < i → ["element3", "element1", "element1_1", "element1"][i']? = some x →
          x ∉ ["element3", "element1", "element1_1", "element1"].drop (i' + 1)) ∧
    (["element3", "element1", "element1_1", "element1"].Nodup →
      NetCDFVariableBase.query_subdevice2index exampleVar exampleDupNcFile =
        .ok ⟨NetCDFVariableBase.buildIndex ["element3", "element1", "element1_1", "element1"],
          exampleVar.name, exampleDupNcFile.filepath⟩ ∧
      ∀ i s, ["element3", "element1", "element1_1", "element1"][i]? = some s →
        lookupAssoc (NetCDFVariableBase.buildIndex
          ["element3", "element1", "element1_1", "element1"]) s = some i)) :=
  query_subdevice2index_duplicates exampleVar exampleDupNcFile
    ["element3", "element1", "element1_1", "element1"] (by rfl)

/-- C7: the row-label coordinate query tries `<name>_station_names`
first, then the bare `station_names`, decoding the first one found; when
neither exists it fails with a message naming both attempted names. -/
theorem query_subdevices_fallback (v : NCVariable) (nc : NcDataset) :
    (∀ chars, lookupAssoc nc.charvars (v.name ++ "_station_names") = some chars →
      NetCDFVariableBase.query_subdevices v nc = .ok (chars2str chars)) ∧
    (lookupAssoc nc.charvars (v.name ++ "_station_names") = none →
      ∀ chars, lookupAssoc nc.charvars "station_names" = some chars →
        NetCDFVariableBase.query_subdevices v nc = .ok (chars2str chars)) ∧
    (lookupAssoc nc.charvars (v.name ++ "_station_names") = none →
      lookupAssoc nc.charvars "station_names" = none →
      ∃ s1 s2 s3,
        NetCDFVariableBase.query_subdevices v nc =
          .error (s1 ++ (v.name ++ "_station_names") ++ s2 ++ "station_names" ++ s3)) := by
  have hfuse : "_" ++ "station_names" = "_station_names" := by decide
  have hname : v.name ++ "_" ++ "station_names" = v.name ++ "_station_names" := by
    rw [String.append_assoc, hfuse]
  refine ⟨?_, ?_, ?_⟩
  · intro chars hc
    simp only [NetCDFVariableBase.query_subdevices, hname, hc]
  · intro h0 chars hc
    simp only [NetCDFVariableBase.query_subdevices, hname, h0, hc]
  · intro h0 h1
    refine ⟨"NetCDF file `" ++ nc.filepath ++ "` does neither contain a variable named `",
      "` nor `", "` for defining the coordinate locations of variable `" ++ v.name ++ "`.", ?_⟩
    simp only [NetCDFVariableBase.query_subdevices, NetCDFVariableBase.missingCoordMessage,
      hname, h0, h1]
    simp only [String.append_assoc]

/-- C7 witness: a file holding only the prefixed coordinate is read
through it; a file missing both candidates fails naming both. -/
theorem query_subdevices_fallback_witness :
    ((∀ chars,
      lookupAssoc exampleNcFile.charvars (exampleVar.name ++ "_station_names") = some chars →
      NetCDFVariableBase.query_subdevices exampleVar exampleNcFile = .ok (chars2str chars)) ∧
    (lookupAssoc exampleNcFile.charvars (exampleVar.name ++ "_station_names") = none →
      ∀ chars, lookupAssoc exampleNcFile.charvars "station_names" = some chars →
        NetCDFVariableBase.query_subdevices exampleVar exampleNcFile = .ok (chars2str chars)) ∧
    (lookupAssoc exampleNcFile.charvars (exampleVar.name ++ "_station_names") = none →
      lookupAssoc exampleNcFile.charvars "station_names" = none →
      ∃ s1 s2 s3, NetCDFVariableBase.query_subdevices exampleVar exampleNcFile =
        .error (s1 ++ (exampleVar.name ++ "_station_names") ++ s2 ++ "station_names" ++ s3))) ∧
    NetCDFVariableBase.query_subdevices exampleVar exampleEmptyNcFile =
      .error (NetCDFVariableBase.missingCoordMessage "model.nc"
        "flux_prec_station_names" "station_names" "flux_prec") :=
  ⟨query_subdevices_fallback exampleVar exampleNcFile, rfl⟩

end HydPy
